import Mathlib

/-!
Shallow embedding of the gofind matching-and-aggregation engine
(cmd/gofind/main.go): query parsing, the type matcher, the four plane
scanners, the sort order, and the highlight grouper, together with
theorems settling the specification claims.

Go strings are modelled as `List Char` (`GoStr`); the separators the
program splits on (`/` and `.`) are single ASCII characters, so a
character-level split coincides with Go's byte-level `strings.Split`.
-/

namespace Gofind

/-- Go strings, modelled as character lists so that all string operations
are structurally recursive and kernel-evaluable. -/
abbrev GoStr := List Char

/-- Convenience injection from Lean string literals. -/
def gs (s : String) : GoStr := s.data

/-- `strings.Split(s, sep)` for a one-character separator: Go's `Split`
never returns an empty list; splitting the empty string yields `[""]`. -/
def splitOnChar (sep : Char) : GoStr → List GoStr
  | [] => [[]]
  | c :: rest =>
    let r := splitOnChar sep rest
    if c = sep then [] :: r
    else
      match r with
      | [] => [[c]]
      | g :: gst => (c :: g) :: gst

/-- `strings.Join(parts, sep)` for a one-character separator. -/
def joinChar (sep : Char) : List GoStr → GoStr
  | [] => []
  | [x] => x
  | x :: xs => x ++ sep :: joinChar sep xs

/-- Go's byte-wise lexicographic `<` on strings. -/
def goStrLt : GoStr → GoStr → Bool
  | [], [] => false
  | [], _ :: _ => true
  | _ :: _, [] => false
  | a :: as, b :: bs => if a = b then goStrLt as bs else decide (a < b)

/-- A syntax node fused with its resolved source position, as produced by
the front end's position resolver: `filename`, 1-based `line`, 1-based
`col`umn, byte `offset`, and `width = node.End() - node.Pos()`. -/
structure Node where
  filename : GoStr
  line : Nat
  col : Nat
  offset : Nat
  width : Nat
deriving DecidableEq, Repr

/-- The kinds of resolved types the matcher distinguishes (`go/types`):
pointer types, named types (with an optional declaring package path, a
name, and a stored underlying type), struct types (field names in
declaration order), signature types of callables, and everything else. -/
inductive GoType where
  | ptr (elem : GoType)
  | named (pkg : Option GoStr) (name : GoStr) (under : GoType)
  | strukt (fields : List GoStr)
  | sig
  | basic (name : GoStr)
deriving DecidableEq, Repr

/-- The pointer-stripping loop of `fieldMatches` (main.go lines 163-169):
repeatedly replace a `*types.Pointer` by its element type. -/
def stripPointers : GoType → GoType
  | .ptr t => stripPointers t
  | t => t

/-- `types.Type.Underlying()`: a named type's stored underlying type
(never itself named in well-formed data); any other type is its own
underlying. -/
def underlying : GoType → GoType
  | .named _ _ u => u
  | t => t

/-- The parsed query descriptor `(pkgPath, objName, selName)`
(main.go lines 117-122). -/
structure Descriptor where
  pkgPath : GoStr
  objName : GoStr
  selName : GoStr
deriving DecidableEq, Repr

/-- Runtime panics the Go code can hit: slice/`st.Field` index out of
range, and failed type assertions such as `elt.(*ast.KeyValueExpr)`. -/
inductive GoPanic where
  | indexOutOfRange
  | typeAssertFailed
deriving DecidableEq, Repr

instance {ε α : Type} [DecidableEq ε] [DecidableEq α] : DecidableEq (Except ε α) := fun a b =>
  match a, b with
  | .ok x, .ok y =>
    if h : x = y then .isTrue (by rw [h]) else .isFalse (fun hc => h (Except.ok.inj hc))
  | .error x, .error y =>
    if h : x = y then .isTrue (by rw [h]) else .isFalse (fun hc => h (Except.error.inj hc))
  | .ok _, .error _ => .isFalse (fun hc => Except.noConfusion hc)
  | .error _, .ok _ => .isFalse (fun hc => Except.noConfusion hc)

/-- The query parser (main.go lines 105-122): split the target on `/`,
split the last segment on `.`; `names[1]` is read unconditionally, so a
last segment with fewer than two dot-segments panics with index out of
range, modelled as `.error .indexOutOfRange`. -/
def parseQuery (target : GoStr) : Except GoPanic Descriptor :=
  let paths := splitOnChar '/' target
  let names := splitOnChar '.' (paths.getLastD [])
  match names[1]? with
  | none => .error .indexOutOfRange
  | some obj =>
    .ok { pkgPath := joinChar '/' (paths.dropLast ++ [names.headD []])
          objName := obj
          selName := (names[2]?).getD [] }

/-- The Type Matcher `fieldMatches(typ, sel)` (main.go lines 158-182):
selector equality gate, pointer stripping, then named-type check with a
non-nil declaring package whose path and name equal the descriptor's. -/
def fieldMatches (d : Descriptor) (typ : GoType) (sel : GoStr) : Bool :=
  if sel ≠ d.selName then false
  else
    match stripPointers typ with
    | .named pkg name _ =>
      match pkg with
      | none => false
      | some p => decide (p = d.pkgPath ∧ name = d.objName)
    | _ => false

/-- The kinds of `types.Object` the use/def scanners distinguish:
`*types.TypeName` (carrying its named type), `*types.Func` (declaring
package path, possibly nil, and name; its `Type()` is a signature), and
every other object carrying its resolved type. -/
inductive GoObject where
  | typeName (ty : GoType)
  | funcObj (pkg : Option GoStr) (name : GoStr)
  | other (ty : GoType)
deriving DecidableEq, Repr

/-- `types.Object.Type()`: a `*types.Func`'s type is its `*types.Signature`. -/
def objType : GoObject → GoType
  | .typeName ty => ty
  | .funcObj _ _ => .sig
  | .other ty => ty

/-- One entry of `pi.Selections`: the receiver type `sel.Recv()`, the
selected member's name (`sel.Obj().Name()`, a `*types.Var` field or a
`*types.Func` method — both branches of the source treat it the same
way), and the trailing identifier node `expr.Sel`. -/
structure Selection where
  recv : GoType
  memberName : GoStr
  selNode : Node
deriving DecidableEq, Repr

/-- The Selection Scanner (main.go lines 224-242): emit `expr.Sel` when
`fieldMatches(sel.Recv(), sel.Obj().Name())` holds. -/
def scanSelections (d : Descriptor) (sels : List Selection) : List Node :=
  sels.filterMap fun s =>
    if fieldMatches d s.recv s.memberName then some s.selNode else none

/-- The Use Scanner's per-object decision (main.go lines 257-273):
skip `*types.TypeName` objects; a `*types.Func` with non-nil declaring
package whose path and name equal the descriptor matches unconditionally;
everything else falls through to `fieldMatches(obj.Type(), "")`. -/
def useMatches (d : Descriptor) (obj : GoObject) : Bool :=
  match obj with
  | .typeName _ => false
  | .funcObj pkg name =>
    if pkg = some d.pkgPath ∧ name = d.objName then true
    else fieldMatches d (objType (.funcObj pkg name)) []
  | .other ty => fieldMatches d ty []

/-- One entry of `pi.Uses`: the identifier node and its resolved object. -/
structure UseEntry where
  node : Node
  obj : GoObject
deriving DecidableEq, Repr

/-- The Use Scanner over a package's use plane. -/
def scanUses (d : Descriptor) (uses : List UseEntry) : List Node :=
  uses.filterMap fun u => if useMatches d u.obj then some u.node else none

/-- One entry of `pi.Defs`: the identifier node and its resolved object,
which may be nil (e.g. the package clause identifier). -/
structure DefEntry where
  node : Node
  obj : Option GoObject
deriving DecidableEq, Repr

/-- The Definition Scanner (main.go lines 277-289): skip nil objects,
then `fieldMatches(obj.Type(), "")`. -/
def scanDefs (d : Descriptor) (defs : List DefEntry) : List Node :=
  defs.filterMap fun e =>
    match e.obj with
    | none => none
    | some obj => if fieldMatches d (objType obj) [] then some e.node else none

/-- One element of a composite literal: a `*ast.KeyValueExpr` (key
identifier name when the key is an identifier, the key's node, and the
whole element's node) or a plain (positional) element node. -/
inductive CLElt where
  | kv (key : Option GoStr) (keyNode : Node) (node : Node)
  | plain (node : Node)
deriving DecidableEq, Repr

/-- The syntax node of the element itself (what `elt` denotes). -/
def CLElt.nodeOf : CLElt → Node
  | .kv _ _ n => n
  | .plain n => n

/-- Keyed branch (main.go lines 318-326): every element is asserted to be
a `*ast.KeyValueExpr` whose key is an `*ast.Ident` (a failed assertion
panics); emit the key node of the first key equal to `selName`. -/
def findKeyed (sel : GoStr) : List CLElt → Except GoPanic (Option Node)
  | [] => .ok none
  | .kv (some k) kn _ :: rest =>
    if k = sel then .ok (some kn) else findKeyed sel rest
  | .kv none _ _ :: _ => .error .typeAssertFailed
  | .plain _ :: _ => .error .typeAssertFailed

/-- Positional branch (main.go lines 327-338): walk elements with their
index; `st.Field(i)` panics once `i` reaches the field count; emit the
element at the first index whose field name equals `selName`. -/
def findPositional (fields : List GoStr) (sel : GoStr) : Nat → List CLElt → Except GoPanic (Option Node)
  | _, [] => .ok none
  | i, e :: rest =>
    match fields[i]? with
    | none => .error .indexOutOfRange
    | some f =>
      if f = sel then .ok (some e.nodeOf) else findPositional fields sel (i + 1) rest

/-- An expression of the `pi.Types` plane: either a composite literal
with its elements, or any other expression. -/
inductive ExprKind where
  | compositeLit (elts : List CLElt)
  | otherExpr
deriving DecidableEq, Repr

/-- One entry of `pi.Types`: the expression and its resolved type `tv.Type`. -/
structure TypeEntry where
  kind : ExprKind
  ty : GoType
deriving DecidableEq, Repr

/-- The Composite-Literal Field Scanner's per-expression step
(main.go lines 302-339): skip non-literals and empty literals; require
`fieldMatches(tv.Type, selName)` and a struct underlying type; then
dispatch on whether the first element is a `*ast.KeyValueExpr`. -/
def scanCompEntry (d : Descriptor) (e : TypeEntry) : Except GoPanic (Option Node) :=
  match e.kind with
  | .otherExpr => .ok none
  | .compositeLit elts =>
    if elts.isEmpty then .ok none
    else if fieldMatches d e.ty d.selName = false then .ok none
    else
      match underlying e.ty with
      | .strukt fields =>
        match elts.head? with
        | some (.kv _ _ _) => findKeyed d.selName elts
        | _ => findPositional fields d.selName 0 elts
      | _ => .ok none

/-- The Composite-Literal Field Scanner over a package's types plane; a
panic in the goroutine aborts the whole process, modelled by `Except`. -/
def scanCompPlane (d : Descriptor) : List TypeEntry → Except GoPanic (List Node)
  | [] => .ok []
  | e :: rest =>
    match scanCompEntry d e, scanCompPlane d rest with
    | .ok m, .ok ms => .ok (m.toList ++ ms)
    | .error er, _ => .error er
    | _, .error er => .error er

/-- One package as reported by the front end: its name, its type-checking
errors, and its four binding planes. -/
structure PackageInfo where
  pkgName : GoStr
  errors : List GoStr
  selections : List Selection
  uses : List UseEntry
  defs : List DefEntry
  typesPlane : List TypeEntry
deriving DecidableEq, Repr

/-- Per-package scan (main.go lines 201-342): a package with type errors
is skipped entirely; otherwise the three unconditional scanners run, and
the composite-literal scanner runs only when `selName` is non-empty. The
returned list is one arrival order of the package's matches. -/
def scanPackage (d : Descriptor) (pi : PackageInfo) : Except GoPanic (List Node) :=
  if pi.errors ≠ [] then .ok []
  else
    match (if d.selName = [] then .ok [] else scanCompPlane d pi.typesPlane) with
    | .error er => .error er
    | .ok comp =>
      .ok (scanSelections d pi.selections ++ scanUses d pi.uses ++
        scanDefs d pi.defs ++ comp)

/-- The diagnostic lines a package contributes (main.go lines 203-209):
nothing when the package is error-free or the quiet flag is set; one line
naming the package and its first error otherwise. -/
def packageLog (quiet : Bool) (pi : PackageInfo) : List GoStr :=
  if pi.errors ≠ [] then
    if quiet = false then [pi.pkgName ++ (gs ": ") ++ pi.errors.headD []] else []
  else []

/-- The whole scan across all initial packages, concatenating per-package
matches (one representative arrival order of the collector's stream). -/
def scanAll (d : Descriptor) : List PackageInfo → Except GoPanic (List Node)
  | [] => .ok []
  | pi :: rest =>
    match scanPackage d pi, scanAll d rest with
    | .ok ns, .ok ms => .ok (ns ++ ms)
    | .error er, _ => .error er
    | _, .error er => .error er

/-- `result.Less` (main.go lines 55-64): compare two matches' positions,
by byte offset within the same file and by filename otherwise. -/
def resultLess (p q : Node) : Bool :=
  if p.filename = q.filename then decide (p.offset < q.offset)
  else goStrLt p.filename q.filename

/-- The postcondition `sort.Sort` establishes: no later element is
`resultLess` than an earlier one. -/
def SortedRes (l : List Node) : Prop :=
  l.Pairwise fun a b => resultLess b a = false

instance (l : List Node) : Decidable (SortedRes l) := by
  unfold SortedRes; infer_instance

/-- The contract of `sort.Sort(res)` (main.go line 350): the output is a
permutation of the collected input and is sorted by `result.Less`. -/
def IsSortResult (input output : List Node) : Prop :=
  output.Perm input ∧ SortedRes output

/-- The sort key a match's position determines: `(filename, offset)`. -/
def posKey (n : Node) : GoStr × Nat := (n.filename, n.offset)

/-- A highlight span (main.go line 369): `(p.Column - 1, p.Column - 1 + width)`. -/
def mkHl (n : Node) : Nat × Nat := (n.col - 1, n.col - 1 + n.width)

/-- A display record (main.go lines 358-362): filename, line, and the
accumulated highlight spans. -/
structure DisplayRecord where
  filename : GoStr
  line : Nat
  highlights : List (Nat × Nat)
deriving DecidableEq, Repr

/-- One step of the grouping loop (main.go lines 367-380), with the
record list kept in reverse so the head is the current record `curr`. -/
def groupStep (acc : List DisplayRecord) (n : Node) : List DisplayRecord :=
  match acc with
  | r :: rest =>
    if n.filename = r.filename ∧ n.line = r.line then
      { r with highlights := r.highlights ++ [mkHl n] } :: rest
    else
      ⟨n.filename, n.line, [mkHl n]⟩ :: r :: rest
  | [] => [⟨n.filename, n.line, [mkHl n]⟩]

/-- The Highlight Grouper: fold the sorted matches through `groupStep`. -/
def groupMatches (ns : List Node) : List DisplayRecord :=
  (ns.foldl groupStep []).reverse

/-- Structural restatement of the positional branch: walk fields and
elements in lockstep; running out of fields with elements left is the
`st.Field(i)` panic. -/
def findPositionalZ (sel : GoStr) : List GoStr → List CLElt → Except GoPanic (Option Node)
  | _, [] => .ok none
  | [], _ :: _ => .error .indexOutOfRange
  | f :: fs, e :: rest =>
    if f = sel then .ok (some e.nodeOf) else findPositionalZ sel fs rest

/-- Spec-side description of the positional emission: the element at the
index of the first field named `sel`, when that index is in range. -/
def specPositionalEmit (fields : List GoStr) (sel : GoStr) (elts : List CLElt) : Option Node :=
  match fields.findIdx? (fun f => decide (f = sel)) with
  | none => none
  | some i => (elts[i]?).map CLElt.nodeOf

/-- Concrete nodes used to instantiate theorems with hypotheses. -/
def nodeA : Node := ⟨gs "a.go", 1, 1, 0, 2⟩

/-- A second concrete node, on a later file and offset. -/
def nodeB : Node := ⟨gs "b.go", 2, 3, 10, 2⟩

/-- A node on the same file and line as `nodeA`, further right. -/
def nodeA2 : Node := ⟨gs "a.go", 1, 5, 4, 2⟩

/-- A concrete descriptor with empty selector. -/
def wDesc : Descriptor := ⟨gs "p", gs "T", gs ""⟩

/-- A concrete error-free package whose use plane holds one matching
identifier (`nodeA` bound to a variable of type `p.T`). -/
def wPkgInfo : PackageInfo :=
  ⟨gs "m", [], [],
    [⟨nodeA, .other (.named (some (gs "p")) (gs "T") (.strukt []))⟩], [], []⟩

/-- A concrete package that fails type checking. -/
def wBadPkg : PackageInfo :=
  ⟨gs "bad", [gs "undefined: x"],
    [⟨.named (some (gs "p")) (gs "T") (.strukt []), gs "f", nodeB⟩],
    [⟨nodeB, .other (.named (some (gs "p")) (gs "T") (.strukt []))⟩],
    [⟨nodeB, some (.other (.named (some (gs "p")) (gs "T") (.strukt [])))⟩], []⟩

/-- Spec-side description of parsing, following the specification's
words: the dot-segments of the last `/`-separated segment. -/
def specDotSegments (target : GoStr) : List GoStr :=
  splitOnChar '.' ((splitOnChar '/' target).getLastD [])

/-- Spec-side description: all leading `/`-separated segments. -/
def specLeadingSegments (target : GoStr) : List GoStr :=
  (splitOnChar '/' target).dropLast

/-- Spec-side description: the defining package path is the leading
segments joined with the first dot-segment. -/
def specPkgPath (target : GoStr) : GoStr :=
  joinChar '/' (specLeadingSegments target ++ [(specDotSegments target).headD []])

/-- Spec-side description: the object name is the second dot-segment. -/
def specObjName (target : GoStr) : GoStr :=
  ((specDotSegments target)[1]?).getD []

/-- Spec-side description: the selector name is the third dot-segment
when present and empty otherwise. -/
def specSelName (target : GoStr) : GoStr :=
  ((specDotSegments target)[2]?).getD []

/-- C1: `fieldMatches(type, selector)` returns true iff the selector
equals the descriptor's selector name and, after repeatedly stripping
pointer indirection, the type is a named type whose declaring package
path equals `pkgPath` and whose name equals `objName`; in particular any
named type with no declaring package is rejected. -/
theorem fieldMatches_spec (d : Descriptor) (typ : GoType) (sel : GoStr) :
    (fieldMatches d typ sel = true ↔
      sel = d.selName ∧
        ∃ u, stripPointers typ = GoType.named (some d.pkgPath) d.objName u) ∧
    (∀ n u, stripPointers typ = GoType.named none n u →
      fieldMatches d typ sel = false) := by
  constructor
  · unfold fieldMatches
    by_cases hs : sel = d.selName
    · simp only [hs, ne_eq, not_true_eq_false, if_false, true_and]
      cases htyp : stripPointers typ with
      | named pkg name u =>
        cases pkg with
        | none => simp
        | some p =>
          simp only [decide_eq_true_eq]
          constructor
          · rintro ⟨rfl, rfl⟩; exact ⟨u, rfl⟩
          · rintro ⟨u', hu⟩
            injection hu with h1 h2 h3
            exact ⟨Option.some.inj h1, h2⟩
      | ptr t => simp
      | strukt fields => simp
      | sig => simp
      | basic name => simp
    · simp [hs]
  · intro n u hu
    unfold fieldMatches
    by_cases hs : sel = d.selName
    · simp only [hs, ne_eq, not_true_eq_false, if_false, hu]
    · simp [hs]

/-- C1 witness: the matcher accepts `*net/http.Client` against the
`net/http.Client` descriptor and rejects the packageless `error` type. -/
theorem fieldMatches_spec_witness :
    fieldMatches ⟨gs "net/http", gs "Client", gs ""⟩
      (.ptr (.named (some (gs "net/http")) (gs "Client") (.strukt []))) (gs "") = true ∧
    fieldMatches ⟨gs "net/http", gs "Client", gs ""⟩
      (.named none (gs "error") .sig) (gs "") = false :=
  ⟨(fieldMatches_spec ⟨gs "net/http", gs "Client", gs ""⟩
      (.ptr (.named (some (gs "net/http")) (gs "Client") (.strukt []))) (gs "")).1.mpr
      ⟨rfl, ⟨.strukt [], by decide⟩⟩,
    (fieldMatches_spec ⟨gs "net/http", gs "Client", gs ""⟩
      (.named none (gs "error") .sig) (gs "")).2 (gs "error") .sig (by decide)⟩

/-- C2 counterexample: the query `"foo"` has a last `/`-segment with a
single dot-segment; the claim says such a run completes normally with
zero matches, but parsing hits the unchecked `names[1]` access and
panics (index out of range), aborting the process. -/
theorem parseQuery_malformed_cex :
    (specDotSegments (gs "foo")).length < 2 ∧
      parseQuery (gs "foo") = .error .indexOutOfRange := by decide

/-- C2 amended: a query whose last `/`-segment has fewer than two
dot-segments makes the parser panic with an index-out-of-range error —
a fatal abort, not a graceful zero-match run. -/
theorem parseQuery_malformed_panics (target : GoStr)
    (h : (specDotSegments target).length < 2) :
    parseQuery target = .error .indexOutOfRange := by
  have hn : (splitOnChar '.' ((splitOnChar '/' target).getLastD []))[1]? = none := by
    rw [List.getElem?_eq_none]
    have := h
    unfold specDotSegments at this
    omega
  simp only [parseQuery, hn]

/-- C2 amended witness at the concrete malformed query `"a/b"`. -/
theorem parseQuery_malformed_panics_witness :
    parseQuery (gs "a/b") = .error .indexOutOfRange :=
  parseQuery_malformed_panics (gs "a/b") (by decide)

/-- C9: for a well-formed query (at least two dot-segments in the last
`/`-segment), the parser yields exactly the descriptor described by the
spec: leading segments joined with the first dot-segment, the second
dot-segment as object name, and the third (when present) as selector. -/
theorem parseQuery_wellformed (target : GoStr)
    (h : 2 ≤ (specDotSegments target).length) :
    parseQuery target = .ok ⟨specPkgPath target, specObjName target, specSelName target⟩ := by
  have h1 : 1 < (splitOnChar '.' ((splitOnChar '/' target).getLastD [])).length := by
    have := h; unfold specDotSegments at this; omega
  simp only [parseQuery, List.getElem?_eq_getElem h1]
  unfold specPkgPath specObjName specSelName specLeadingSegments specDotSegments
  simp [List.getElem?_eq_getElem h1]
  rw [List.getElem?_eq_getElem (by simpa [List.getLastD_eq_getLast?] using h1),
    Option.getD_some]

/-- C9 witness at the concrete query `"encoding/json.Encoder.Encode"`. -/
theorem parseQuery_wellformed_witness :
    parseQuery (gs "encoding/json.Encoder.Encode") =
      .ok ⟨specPkgPath (gs "encoding/json.Encoder.Encode"),
           specObjName (gs "encoding/json.Encoder.Encode"),
           specSelName (gs "encoding/json.Encoder.Encode")⟩ :=
  parseQuery_wellformed (gs "encoding/json.Encoder.Encode") (by decide)

/-- C4: the Use Scanner skips identifiers bound to type names; an
identifier bound to a callable with the descriptor's declaring package
path and name matches unconditionally; any other binding matches exactly
when the Type Matcher accepts its resolved type with empty selector. -/
theorem useScanner_spec (d : Descriptor) :
    (∀ ty, useMatches d (.typeName ty) = false) ∧
    (∀ pkg name, pkg = some d.pkgPath → name = d.objName →
      useMatches d (.funcObj pkg name) = true) ∧
    (∀ pkg name, ¬(pkg = some d.pkgPath ∧ name = d.objName) →
      useMatches d (.funcObj pkg name) =
        fieldMatches d (objType (.funcObj pkg name)) []) ∧
    (∀ ty, useMatches d (.other ty) = fieldMatches d ty []) := by
  refine ⟨fun ty => rfl, ?_, ?_, fun ty => rfl⟩
  · rintro pkg name rfl rfl
    simp [useMatches]
  · intro pkg name hne
    simp [useMatches, hne]

/-- C4 witness: the callable bypass at a concrete descriptor and object. -/
theorem useScanner_spec_witness :
    useMatches ⟨gs "p", gs "F", gs ""⟩ (.funcObj (some (gs "p")) (gs "F")) = true :=
  (useScanner_spec ⟨gs "p", gs "F", gs ""⟩).2.1 _ _ rfl rfl

/-- C10: with a non-empty selector name the callable bypass still fires —
a use bound to a function with the descriptor's package path and name is
a match — even though the selector equality gate closes every type-based
path (`fieldMatches` with empty selector is identically false). -/
theorem callableBypass_ignores_selector (d : Descriptor) (h : d.selName ≠ []) :
    useMatches d (.funcObj (some d.pkgPath) d.objName) = true ∧
    ∀ ty, fieldMatches d ty [] = false := by
  constructor
  · simp [useMatches]
  · intro ty
    have hne : ([] : GoStr) ≠ d.selName := fun he => h he.symm
    unfold fieldMatches
    simp [hne]

/-- C10 witness at a concrete descriptor with selector `"M"`. -/
theorem callableBypass_witness :
    useMatches ⟨gs "p", gs "F", gs "M"⟩ (.funcObj (some (gs "p")) (gs "F")) = true ∧
    fieldMatches ⟨gs "p", gs "F", gs "M"⟩
      (.named (some (gs "p")) (gs "F") (.strukt [])) [] = false := by
  have h := callableBypass_ignores_selector ⟨gs "p", gs "F", gs "M"⟩ (by decide)
  exact ⟨h.1, h.2 _⟩

/-- Shifting lemma: the indexed positional walk over `pre ++ fields`
starting at index `pre.length` is the structural walk over `fields`. -/
theorem findPositional_eq_z (sel : GoStr) :
    ∀ (elts : List CLElt) (pre fields : List GoStr),
      findPositional (pre ++ fields) sel pre.length elts = findPositionalZ sel fields elts := by
  intro elts
  induction elts with
  | nil => intro pre fields; cases fields <;> rfl
  | cons e rest ih =>
    intro pre fields
    cases fields with
    | nil =>
      have hnone : (pre ++ ([] : List GoStr))[pre.length]? = none := by
        rw [List.getElem?_eq_none]
        simp
      simp [findPositional, findPositionalZ, hnone]
    | cons f fs =>
      have hf : (pre ++ f :: fs)[pre.length]? = some f := by
        rw [List.getElem?_append_right (le_refl pre.length)]
        simp
      simp only [findPositional, findPositionalZ, hf]
      by_cases hfs : f = sel
      · simp [hfs]
      · rw [if_neg hfs, if_neg hfs]
        have := ih (pre ++ [f]) fs
        simpa [List.append_assoc] using this

/-- The structural positional walk agrees with the spec-side emission
whenever the element count equals the field count. -/
theorem findPositionalZ_spec (sel : GoStr) :
    ∀ (fields : List GoStr) (elts : List CLElt), elts.length = fields.length →
      findPositionalZ sel fields elts = .ok (specPositionalEmit fields sel elts) := by
  intro fields
  induction fields with
  | nil =>
    intro elts h
    cases elts with
    | nil => rfl
    | cons _ _ => simp at h
  | cons f fs ih =>
    intro elts h
    cases elts with
    | nil => simp at h
    | cons e rest =>
      simp only [findPositionalZ]
      by_cases hf : f = sel
      · simp [hf, specPositionalEmit, List.findIdx?_cons]
      · have h' : rest.length = fs.length := by simpa using h
        rw [if_neg hf, ih rest h']
        simp only [specPositionalEmit, List.findIdx?_cons, decide_eq_true_eq, hf,
          if_false, decide_False]
        cases hidx : fs.findIdx? (fun x => decide (x = sel)) with
        | none => simp [hidx]
        | some i => simp [hidx]

/-- C3 counterexample: a positional literal with one element against a
two-field struct (a mismatched element count) still emits a Match when
the first field's name equals the selector — the code never checks
`len(comp.Elts) == st.NumFields()`. -/
theorem compLit_count_cex :
    scanCompEntry ⟨gs "p", gs "T", gs "a"⟩
        ⟨.compositeLit [.plain ⟨gs "f.go", 1, 1, 0, 1⟩],
         .named (some (gs "p")) (gs "T") (.strukt [gs "a", gs "b"])⟩ =
      .ok (some ⟨gs "f.go", 1, 1, 0, 1⟩) ∧
    ([CLElt.plain ⟨gs "f.go", 1, 1, 0, 1⟩].length ≠ [gs "a", gs "b"].length) := by
  decide

/-- C3 amended: the scanner relies on, but does not check, the invariant
`len(elements) = structFieldCount` (which holds in every error-free
package); under that invariant a positional literal emits exactly the
element at the index of the first field named `selName`, and never
panics. A mismatched count does not by itself suppress a Match. -/
theorem compLit_positional_amended (d : Descriptor) (ty : GoType)
    (fields : List GoStr) (n0 : Node) (rest : List CLElt)
    (hmatch : fieldMatches d ty d.selName = true)
    (hu : underlying ty = .strukt fields)
    (hlen : (CLElt.plain n0 :: rest).length = fields.length) :
    scanCompEntry d ⟨.compositeLit (CLElt.plain n0 :: rest), ty⟩ =
      .ok (specPositionalEmit fields d.selName (CLElt.plain n0 :: rest)) := by
  simp only [scanCompEntry, hmatch, hu, List.isEmpty_cons, List.head?_cons]
  have hz := findPositional_eq_z d.selName (CLElt.plain n0 :: rest) [] fields
  simp only [List.nil_append, List.length_nil] at hz
  simp [hz, findPositionalZ_spec d.selName fields _ hlen]

/-- C3 amended witness: a two-element positional literal against a
two-field struct emits the second element for selector `"b"`. -/
theorem compLit_positional_amended_witness :
    scanCompEntry ⟨gs "p", gs "T", gs "b"⟩
        ⟨.compositeLit [.plain ⟨gs "f.go", 1, 1, 0, 1⟩, .plain ⟨gs "f.go", 1, 4, 3, 1⟩],
         .named (some (gs "p")) (gs "T") (.strukt [gs "a", gs "b"])⟩ =
      .ok (specPositionalEmit [gs "a", gs "b"] (gs "b")
        [.plain ⟨gs "f.go", 1, 1, 0, 1⟩, .plain ⟨gs "f.go", 1, 4, 3, 1⟩]) :=
  compLit_positional_amended ⟨gs "p", gs "T", gs "b"⟩
    (.named (some (gs "p")) (gs "T") (.strukt [gs "a", gs "b"]))
    [gs "a", gs "b"] ⟨gs "f.go", 1, 1, 0, 1⟩ [.plain ⟨gs "f.go", 1, 4, 3, 1⟩]
    (by decide) (by decide) (by decide)

theorem goStrLt_irrefl : ∀ a : GoStr, goStrLt a a = false := by
  intro a
  induction a with
  | nil => rfl
  | cons c cs ih => simp [goStrLt, ih]

theorem goStrLt_conn : ∀ a b : GoStr, goStrLt a b = false → goStrLt b a = false → a = b := by
  intro a
  induction a with
  | nil =>
    intro b h1 _
    cases b with
    | nil => rfl
    | cons d ds => simp [goStrLt] at h1
  | cons c cs ih =>
    intro b h1 h2
    cases b with
    | nil => simp [goStrLt] at h2
    | cons d ds =>
      by_cases hcd : c = d
      · subst hcd
        simp only [goStrLt, if_pos rfl] at h1 h2
        rw [ih ds h1 h2]
      · simp only [goStrLt, if_neg hcd, if_neg (Ne.symm hcd), decide_eq_false_iff_not] at h1 h2
        exact absurd (le_antisymm (not_lt.mp h2) (not_lt.mp h1)) hcd

theorem resultLess_both_false (a b : Node) (h1 : resultLess a b = false)
    (h2 : resultLess b a = false) : posKey a = posKey b := by
  unfold resultLess at h1 h2
  by_cases hfn : a.filename = b.filename
  · rw [if_pos hfn] at h1
    rw [if_pos hfn.symm] at h2
    simp only [decide_eq_false_iff_not, not_lt] at h1 h2
    have hoff : a.offset = b.offset := le_antisymm h2 h1
    simp [posKey, hfn, hoff]
  · rw [if_neg hfn] at h1
    rw [if_neg (fun he => hfn he.symm)] at h2
    exact absurd (goStrLt_conn _ _ h1 h2) hfn

/-- Two sorted lists that are permutations of each other, over matches
whose `(filename, offset)` keys are pairwise distinguishing, are equal. -/
theorem eq_of_perm_of_sortedRes :
    ∀ {l₁ l₂ : List Node}, l₁.Perm l₂ → SortedRes l₁ → SortedRes l₂ →
      (∀ x ∈ l₁, ∀ y ∈ l₁, posKey x = posKey y → x = y) → l₁ = l₂ := by
  intro l₁
  induction l₁ with
  | nil =>
    intro l₂ hp _ _ _
    exact (hp.symm.eq_nil).symm
  | cons a t ih =>
    intro l₂ hp hs₁ hs₂ hinj
    cases l₂ with
    | nil => exact absurd hp.eq_nil (by simp)
    | cons b t₂ =>
      by_cases hab : a = b
      · subst hab
        have hp' := hp.cons_inv
        have hs₁' := (List.pairwise_cons.mp hs₁).2
        have hs₂' := (List.pairwise_cons.mp hs₂).2
        have hinj' : ∀ x ∈ t, ∀ y ∈ t, posKey x = posKey y → x = y := fun x hx y hy =>
          hinj x (List.mem_cons_of_mem _ hx) y (List.mem_cons_of_mem _ hy)
        rw [ih hp' hs₁' hs₂' hinj']
      · have ha2 : a ∈ t₂ := by
          have hmem : a ∈ b :: t₂ := hp.subset (List.mem_cons_self a t)
          cases List.mem_cons.mp hmem with
          | inl h => exact absurd h hab
          | inr h => exact h
        have hb1 : b ∈ t := by
          have hmem : b ∈ a :: t := hp.symm.subset (List.mem_cons_self b t₂)
          cases List.mem_cons.mp hmem with
          | inl h => exact absurd h.symm hab
          | inr h => exact h
        have h1 : resultLess b a = false := (List.pairwise_cons.mp hs₁).1 b hb1
        have h2 : resultLess a b = false := (List.pairwise_cons.mp hs₂).1 a ha2
        have hkey : posKey a = posKey b := resultLess_both_false a b h2 h1
        exact absurd
          (hinj a (List.mem_cons_self _ _) b (List.mem_cons_of_mem _ hb1) hkey) hab

/-- C6: a list sorted by `result.Less`, over matches with pairwise
distinct `(filename, offset)` keys, is in filename-ascending then
offset-ascending order: an element with a smaller filename comes
strictly earlier, and within one file byte offsets strictly ascend. -/
theorem sortOrder_spec (o : List Node) (i j : Nat)
    (hi : i < o.length) (hj : j < o.length)
    (hs : SortedRes o)
    (hk : o.Pairwise fun x y => posKey x ≠ posKey y) :
    (goStrLt (o.get ⟨i, hi⟩).filename (o.get ⟨j, hj⟩).filename = true → i < j) ∧
    (i < j → (o.get ⟨i, hi⟩).filename = (o.get ⟨j, hj⟩).filename →
      (o.get ⟨i, hi⟩).offset < (o.get ⟨j, hj⟩).offset) := by
  have hpw := List.pairwise_iff_get.mp hs
  have hkpw := List.pairwise_iff_get.mp hk
  constructor
  · intro hlt
    rcases lt_trichotomy i j with h | h | h
    · exact h
    · subst h
      rw [goStrLt_irrefl] at hlt
      exact Bool.noConfusion hlt
    · have hrel := hpw ⟨j, hj⟩ ⟨i, hi⟩ h
      unfold resultLess at hrel
      by_cases hfn : (o.get ⟨i, hi⟩).filename = (o.get ⟨j, hj⟩).filename
      · rw [hfn, goStrLt_irrefl] at hlt
        exact Bool.noConfusion hlt
      · rw [if_neg hfn] at hrel
        rw [hrel] at hlt
        exact Bool.noConfusion hlt
  · intro hij hfn
    have hrel := hpw ⟨i, hi⟩ ⟨j, hj⟩ hij
    unfold resultLess at hrel
    rw [if_pos hfn.symm] at hrel
    simp only [decide_eq_false_iff_not, not_lt] at hrel
    have hkne := hkpw ⟨i, hi⟩ ⟨j, hj⟩ hij
    have hoffne : (o.get ⟨i, hi⟩).offset ≠ (o.get ⟨j, hj⟩).offset := by
      intro he
      exact hkne (by simp only [posKey, Prod.mk.injEq]; exact ⟨hfn, he⟩)
    omega

/-- C6 witness at the concrete sorted pair `[nodeA, nodeB]`, indices 0, 1. -/
theorem sortOrder_spec_witness :
    (goStrLt (([nodeA, nodeB] : List Node).get ⟨0, by decide⟩).filename
        (([nodeA, nodeB] : List Node).get ⟨1, by decide⟩).filename = true → 0 < 1) ∧
    (0 < 1 →
      (([nodeA, nodeB] : List Node).get ⟨0, by decide⟩).filename =
        (([nodeA, nodeB] : List Node).get ⟨1, by decide⟩).filename →
      (([nodeA, nodeB] : List Node).get ⟨0, by decide⟩).offset <
        (([nodeA, nodeB] : List Node).get ⟨1, by decide⟩).offset) :=
  sortOrder_spec [nodeA, nodeB] 0 1 (by decide) (by decide) (by decide) (by decide)

/-- C7: two matches on the same file and line with disjoint, ordered
column ranges group into exactly one display record holding both spans
in left-to-right order; two matches differing in file or line yield two
separate records. -/
theorem grouping_spec (m₁ m₂ : Node)
    (hfn : m₁.filename = m₂.filename) (hline : m₁.line = m₂.line)
    (hdisj : (mkHl m₁).2 ≤ (mkHl m₂).1) :
    (groupMatches [m₁, m₂] = [⟨m₁.filename, m₁.line, [mkHl m₁, mkHl m₂]⟩] ∧
      (mkHl m₁).2 ≤ (mkHl m₂).1) ∧
    (∀ p₁ p₂ : Node, ¬(p₂.filename = p₁.filename ∧ p₂.line = p₁.line) →
      groupMatches [p₁, p₂] =
        [⟨p₁.filename, p₁.line, [mkHl p₁]⟩, ⟨p₂.filename, p₂.line, [mkHl p₂]⟩]) := by
  refine ⟨⟨?_, hdisj⟩, ?_⟩
  · simp [groupMatches, groupStep, hfn.symm, hline.symm]
  · intro p₁ p₂ h
    simp [groupMatches, groupStep, h]

/-- C7 witness: `nodeA` and `nodeA2` share file `a.go` line 1 with spans
`(0,2)` and `(4,6)`; `nodeA` and `nodeB` differ in file. -/
theorem grouping_spec_witness :
    (groupMatches [nodeA, nodeA2] =
        [⟨nodeA.filename, nodeA.line, [mkHl nodeA, mkHl nodeA2]⟩] ∧
      (mkHl nodeA).2 ≤ (mkHl nodeA2).1) ∧
    (∀ p₁ p₂ : Node, ¬(p₂.filename = p₁.filename ∧ p₂.line = p₁.line) →
      groupMatches [p₁, p₂] =
        [⟨p₁.filename, p₁.line, [mkHl p₁]⟩, ⟨p₂.filename, p₂.line, [mkHl p₂]⟩]) :=
  grouping_spec nodeA nodeA2 (by decide) (by decide) (by decide)

/-- C8: a package with type-checking errors contributes no matches (none
of its scanners run), produces a diagnostic exactly when the quiet flag
is unset, and its presence anywhere in the package list leaves the scan
of all other packages unchanged. -/
theorem package_failure_isolated (d : Descriptor) (quiet : Bool)
    (pis₁ pis₂ : List PackageInfo) (pi : PackageInfo)
    (herr : pi.errors ≠ []) :
    scanPackage d pi = .ok [] ∧
    (quiet = false → packageLog quiet pi ≠ []) ∧
    (quiet = true → packageLog quiet pi = []) ∧
    scanAll d (pis₁ ++ pi :: pis₂) = scanAll d (pis₁ ++ pis₂) := by
  have hskip : scanPackage d pi = .ok [] := by simp [scanPackage, herr]
  refine ⟨hskip, ?_, ?_, ?_⟩
  · intro hq; simp [packageLog, herr, hq]
  · intro hq; simp [packageLog, herr, hq]
  · induction pis₁ with
    | nil =>
      simp only [List.nil_append, scanAll, hskip]
      cases h2 : scanAll d pis₂ <;> simp
    | cons p ps ihp =>
      simp only [List.cons_append, scanAll, List.append_eq]
      rw [ihp]

/-- C8 witness at the concrete failing package `wBadPkg`, quiet unset. -/
theorem package_failure_isolated_witness :
    scanPackage wDesc wBadPkg = .ok [] ∧
    (false = false → packageLog false wBadPkg ≠ []) ∧
    (false = true → packageLog false wBadPkg = []) ∧
    scanAll wDesc ([wPkgInfo] ++ wBadPkg :: []) = scanAll wDesc ([wPkgInfo] ++ []) :=
  package_failure_isolated wDesc false [wPkgInfo] [] wBadPkg (by decide)

/-- C5: the final display records are independent of the collector's
arrival order: for a fixed corpus and query whose matches have pairwise
distinguishing `(filename, offset)` keys, any two runs — each an
arbitrary permutation of the scanners' matches fed through the
`sort.Sort` contract — group into identical display records. -/
theorem scan_deterministic (d : Descriptor) (pis : List PackageInfo)
    (ms a₁ a₂ o₁ o₂ : List Node)
    (hms : scanAll d pis = .ok ms)
    (hkey : ∀ x ∈ ms, ∀ y ∈ ms, posKey x = posKey y → x = y)
    (h₁ : a₁.Perm ms) (h₂ : a₂.Perm ms)
    (hs₁ : IsSortResult a₁ o₁) (hs₂ : IsSortResult a₂ o₂) :
    groupMatches o₁ = groupMatches o₂ := by
  have hp₁ : o₁.Perm ms := hs₁.1.trans h₁
  have hp₂ : o₂.Perm ms := hs₂.1.trans h₂
  have hinj : ∀ x ∈ o₁, ∀ y ∈ o₁, posKey x = posKey y → x = y := fun x hx y hy =>
    hkey x (hp₁.subset hx) y (hp₁.subset hy)
  have heq : o₁ = o₂ := eq_of_perm_of_sortedRes (hp₁.trans hp₂.symm) hs₁.2 hs₂.2 hinj
  rw [heq]

/-- C5 witness: the one-package corpus `wPkgInfo` yields the single
match `nodeA`; both runs produce the same records. -/
theorem scan_deterministic_witness :
    groupMatches [nodeA] = groupMatches [nodeA] :=
  scan_deterministic wDesc [wPkgInfo] [nodeA] [nodeA] [nodeA] [nodeA] [nodeA]
    (by decide) (by decide) (by decide) (by decide)
    ⟨by decide, by decide⟩ ⟨by decide, by decide⟩

end Gofind
